import Mathlib

/-!
Verification development for the power-distribution core of a microgrid SDK
and for its grid-current formula generator.

The grid-current part (`genPhaseRun`, `genPhaseFormula`) is a shallow
embedding of `GridCurrentFormula._gen_phase_formula` from
`src/frequenz/sdk/timeseries/_formula_engine/_formula_generators/_grid_current_formula.py`.

The power-distribution part models the `PowerDistributingActor` pipeline.
Its implementation module is not part of the sources at hand (only its test
suite `tests/actor/power_distributing/test_power_distributing.py` is), so the
pipeline is modelled from the specification, with the behaviour fixed by the
test suite wherever the two speak to the same point.  Watts are modelled as
rational numbers; an IEEE NaN field is modelled as `Option.none`.
-/

namespace PD

/-- Component categories of the microgrid component graph
(`frequenz.sdk.microgrid.component.ComponentCategory`). -/
inductive ComponentCategory where
  | unspecified
  | grid
  | meter
  | inverter
  | battery
  | evCharger
  | chp
deriving DecidableEq, Repr

/-- A component of the component graph: a stable integer id and a category. -/
structure Component where
  component_id : Nat
  category : ComponentCategory
deriving DecidableEq, Repr

/-- One step pushed into the formula builder by `_gen_phase_formula`:
either an operator token (`builder.push_oper`) or a component-metric operand
with its `nones_are_zeros` flag (`builder.push_component_metric`). -/
inductive FormulaStep where
  | oper (symbol : String)
  | metric (component_id : Nat) (nones_are_zeros : Bool)
deriving DecidableEq, Repr

/-- The loop of `GridCurrentFormula._gen_phase_formula`, embedded over the
iteration order of `grid_successors`.  `idx` is the `enumerate` counter and
`builder` the list of steps pushed so far.  For `idx > 0` a `"+"` operator is
pushed before the category of the component is examined; components whose
category is not `INVERTER`, `EV_CHARGER` or `METER` push no operand
(the `continue` in the source). -/
def genPhaseRun : Nat → List Component → List FormulaStep → List FormulaStep
  | _, [], builder => builder
  | idx, comp :: rest, builder =>
    let builder := if idx > 0 then builder ++ [FormulaStep.oper "+"] else builder
    let builder :=
      if comp.category = ComponentCategory.inverter ∨
          comp.category = ComponentCategory.evCharger then
        builder ++ [FormulaStep.metric comp.component_id true]
      else if comp.category = ComponentCategory.meter then
        builder ++ [FormulaStep.metric comp.component_id false]
      else
        builder
    genPhaseRun (idx + 1) rest builder

/-- Entry point of `GridCurrentFormula._gen_phase_formula`: run the loop over
the grid successors starting with an empty builder. -/
def genPhaseFormula (grid_successors : List Component) : List FormulaStep :=
  genPhaseRun 0 grid_successors []

/-- Contribution of the component at position `idx`, written from the claim's
words: a `"+"` operator before every component except the first regardless of
its category, then a metric operand with `nones_are_zeros = true` exactly for
`INVERTER` and `EV_CHARGER`, with `nones_are_zeros = false` exactly for
`METER`, and no operand for any other category. -/
def claimedPhaseContribution (idx : Nat) (comp : Component) : List FormulaStep :=
  (if idx = 0 then [] else [FormulaStep.oper "+"]) ++
    (if comp.category = ComponentCategory.inverter ∨
        comp.category = ComponentCategory.evCharger then
      [FormulaStep.metric comp.component_id true]
    else if comp.category = ComponentCategory.meter then
      [FormulaStep.metric comp.component_id false]
    else
      [])

/-- Modelled from the spec: the `PowerBounds` 4-tuple
`(inclusion_lower, exclusion_lower, exclusion_upper, inclusion_upper)` of
watts (§3 of the spec); the implementation module
`frequenz.sdk.actor.power_distributing.result` is not among the sources. -/
structure PowerBounds where
  inclusion_lower : ℚ
  exclusion_lower : ℚ
  exclusion_upper : ℚ
  inclusion_upper : ℚ
deriving DecidableEq, Repr

/-- Well-formedness invariant of `PowerBounds` stated by the data model:
`inclusion_lower ≤ exclusion_lower ≤ 0 ≤ exclusion_upper ≤ inclusion_upper`. -/
def PowerBounds.WF (pb : PowerBounds) : Prop :=
  pb.inclusion_lower ≤ pb.exclusion_lower ∧ pb.exclusion_lower ≤ 0 ∧
    0 ≤ pb.exclusion_upper ∧ pb.exclusion_upper ≤ pb.inclusion_upper

/-- Modelled from the spec: a battery telemetry sample (§3 `BatterySample`);
the battery-data module is not among the sources.  A NaN numeric field is
modelled as `none`; the claims exercise NaN only in `soc` and `capacity`, so
only those two fields carry the sentinel here. -/
structure BatteryData where
  soc : Option ℚ
  soc_lower : ℚ
  soc_upper : ℚ
  capacity : Option ℚ
  bounds : PowerBounds
deriving DecidableEq, Repr

/-- A fully valid battery snapshot: every distribution-relevant numeric field
is known (finite).  Used both for the actor's metric cache and as the form a
sample must reach before it can enter the distribution. -/
structure BatteryValid where
  soc : ℚ
  soc_lower : ℚ
  soc_upper : ℚ
  capacity : ℚ
  bounds : PowerBounds
deriving DecidableEq, Repr

/-- Modelled from the spec: the per-battery lookup of §4.1
(`get_for_distribution`); the telemetry-cache module is not among the
sources.  With `force = false` the latest sample is used only if every
distribution-relevant field is finite; with `force = true`
(`include_broken_batteries`) missing fields are substituted per field from
the request-time metric cache, and the sample is dropped only if a field is
still unknown after substitution (behaviour fixed by
`test_force_request_battery_nan_value_non_cached` and
`test_force_request_batteries_nan_values_cached`). -/
def effectiveBattery (force : Bool) :
    Option BatteryData → Option BatteryValid → Option BatteryValid
  | none, _ => none
  | some latest, cached =>
    let soc := if force then latest.soc.orElse (fun _ => cached.map (·.soc)) else latest.soc
    let cap :=
      if force then latest.capacity.orElse (fun _ => cached.map (·.capacity))
      else latest.capacity
    match soc, cap with
    | some s, some c => some ⟨s, latest.soc_lower, latest.soc_upper, c, latest.bounds⟩
    | _, _ => none

/-- An eligible battery/inverter pair ready for distribution: the effective
inclusion envelope `[lo, hi]` (intersection of the two devices' envelopes),
the effective exclusion band `(elo, ehi)` (union of the two bands), and the
SoC-derived charge/discharge weights of §4.4 step 5. -/
structure Pair where
  bid : Nat
  lo : ℚ
  hi : ℚ
  elo : ℚ
  ehi : ℚ
  wc : ℚ
  wd : ℚ
deriving DecidableEq, Repr

/-- Well-formedness of an eligible pair, inherited from the `PowerBounds`
invariant: `lo ≤ elo ≤ 0 ≤ ehi ≤ hi`. -/
def Pair.WF (p : Pair) : Prop :=
  p.lo ≤ p.elo ∧ p.elo ≤ 0 ∧ 0 ≤ p.ehi ∧ p.ehi ≤ p.hi

/-- Modelled from the spec: the per-pair effective bounds of §4.3 (intersect
the inclusion envelopes, union the exclusion bands) and the SoC-derived
weights of §4.4 step 5, clamped non-negative; the bounds-solver module is not
among the sources. -/
def mkPair (b : Nat) (bd : BatteryValid) (inv : PowerBounds) : Pair where
  bid := b
  lo := max bd.bounds.inclusion_lower inv.inclusion_lower
  hi := min bd.bounds.inclusion_upper inv.inclusion_upper
  elo := min bd.bounds.exclusion_lower inv.exclusion_lower
  ehi := max bd.bounds.exclusion_upper inv.exclusion_upper
  wc := max 0 (bd.capacity * (bd.soc_upper - bd.soc))
  wd := max 0 (bd.capacity * (bd.soc - bd.soc_lower))

/-- Modelled from the spec: the aggregate inclusion envelope and exclusion
band of §4.3, the per-field sums of the per-pair effective bounds. -/
def aggBounds (pairs : List Pair) : PowerBounds where
  inclusion_lower := (pairs.map Pair.lo).sum
  exclusion_lower := (pairs.map Pair.elo).sum
  exclusion_upper := (pairs.map Pair.ehi).sum
  inclusion_upper := (pairs.map Pair.hi).sum

/-- Modelled from the spec: a power request (§3 `Request`); the request
module is not among the sources.  The requested battery ids are listed in
the request's iteration order; `namespace` and `request_timeout` play no
role in any claim and are omitted. -/
structure Request where
  power : ℚ
  batteries : List Nat
  adjust_power : Bool := true
  include_broken_batteries : Bool := false
deriving DecidableEq, Repr

/-- Modelled from the spec: the closed `Result` sum type (§3); the result
module is not among the sources.  `success` and `partFailure` both carry
`succeeded_power`, `excess_power` and the two battery sets; `partFailure`
additionally carries `failed_power` (for `success` the failed power is 0 and
for `partFailure` the conservation invariant involves all three powers). -/
inductive DistResult where
  | success (succeeded_power excess_power : ℚ)
      (succeeded_batteries failed_batteries : List Nat)
  | partFailure (succeeded_power failed_power excess_power : ℚ)
      (succeeded_batteries failed_batteries : List Nat)
  | outOfBounds (bounds : PowerBounds)
  | error (msg : String)
deriving DecidableEq, Repr

/-- Succeeded power reported by a result (0 for the non-dispatch variants). -/
def DistResult.succeededPower : DistResult → ℚ
  | .success sp _ _ _ => sp
  | .partFailure sp _ _ _ _ => sp
  | _ => 0

/-- Excess power reported by a result (0 for the non-dispatch variants). -/
def DistResult.excessPower : DistResult → ℚ
  | .success _ ep _ _ => ep
  | .partFailure _ _ ep _ _ => ep
  | _ => 0

/-- Failed power reported by a result (0 unless it is a `partFailure`). -/
def DistResult.failedPower : DistResult → ℚ
  | .partFailure _ fp _ _ _ => fp
  | _ => 0

/-- Batteries reported as having received their setpoint. -/
def DistResult.succeededBatteries : DistResult → List Nat
  | .success _ _ sb _ => sb
  | .partFailure _ _ _ sb _ => sb
  | _ => []

/-- Whether a result is the `Success` variant. -/
def DistResult.isSuccess : DistResult → Bool
  | .success _ _ _ _ => true
  | _ => false

/-- Whether a result is `Success` or `PartialFailure`. -/
def DistResult.isSuccessOrPartFail : DistResult → Bool
  | .success _ _ _ _ => true
  | .partFailure _ _ _ _ _ => true
  | _ => false

/-- Whether a result is the `OutOfBounds` variant. -/
def DistResult.isOutOfBounds : DistResult → Bool
  | .outOfBounds _ => true
  | _ => false

/-- Modelled from the spec: the decision of one request before dispatch:
either an error, an out-of-bounds rejection with the aggregate bounds, or a
list of per-pair setpoints together with the accumulated excess power. -/
inductive Plan where
  | planError (msg : String)
  | planOOB (bounds : PowerBounds)
  | planDispatch (setpoints : List (Nat × ℚ)) (excess : ℚ)
deriving DecidableEq, Repr

/-- Modelled from the spec: the environment the actor resolves a request
against — the component graph's battery ids and battery-to-inverter
adjacency (§3), the status provider's working set (§4.2), the latest
telemetry per component, the actor's request-time metric cache (§4.1), and
the dispatch outcome (ids whose inverter reported failure, §4.4 steps 6-7),
which is external nondeterminism made explicit.  None of these modules are
among the sources. -/
structure DistEnv where
  graph_batteries : List Nat
  bat_inv : Nat → Nat
  working : List Nat
  latest_battery : Nat → Option BatteryData
  cached_battery : Nat → Option BatteryValid
  latest_inverter : Nat → Option PowerBounds
  failed_dispatch : List Nat

/-- Modelled from the spec: the eligibility rules 2-5 of §4.2 — intersect the
requested ids with the working set; `include_broken_batteries` overrides the
working set; an empty intersection falls back to the full requested set. -/
def eligibleIds (env : DistEnv) (req : Request) : List Nat :=
  if req.include_broken_batteries then req.batteries
  else
    let w := req.batteries.filter fun b => env.working.contains b
    if w.isEmpty then req.batteries else w

/-- Modelled from the spec: resolve one eligible battery id into a usable
pair (§4.2 rule 6): the effective battery snapshot under §4.1 and the paired
inverter's latest bounds must both exist. -/
def pairFor (env : DistEnv) (force : Bool) (b : Nat) : Option Pair :=
  match effectiveBattery force (env.latest_battery b) (env.cached_battery b) with
  | none => none
  | some bd =>
    match env.latest_inverter (env.bat_inv b) with
    | none => none
    | some inv => some (mkPair b bd inv)

/-- The usable pairs of a request: the eligible ids that survive telemetry
resolution, in request order. -/
def usablePairs (env : DistEnv) (req : Request) : List Pair :=
  (eligibleIds env req).filterMap (pairFor env req.include_broken_batteries)

/-- Clamp `x` into the interval `[lo, hi]`. -/
def clampQ (x lo hi : ℚ) : ℚ := max lo (min hi x)

/-- Modelled from the spec: allocation of a non-negative target across the
pairs (§4.4 steps 3-5), in pair order: each pair receives as much of the
remaining power as its effective upper bound admits; a pair whose charge
weight is zero is skipped, and a share that would land strictly inside the
pair's exclusion band is clipped down to 0 with its residual carried to the
later pairs.  `chargeShare` is the share of one pair given the remaining
power; `allocCharge` folds it over the pair list, returning the per-pair
setpoints and the residual that no pair could take. -/
def chargeShare (p : Pair) (r : ℚ) : ℚ :=
  let g0 := min r p.hi
  if p.wc ≤ 0 then 0 else if 0 < g0 ∧ g0 < p.ehi then 0 else g0

/-- Recursion of `allocCharge`: give the head pair its share of the
remaining power and carry the rest to the later pairs. -/
def allocCharge : List Pair → ℚ → List (Nat × ℚ) × ℚ
  | [], r => ([], r)
  | p :: ps, r =>
    let rest := allocCharge ps (r - chargeShare p r)
    ((p.bid, chargeShare p r) :: rest.1, rest.2)

/-- Modelled from the spec: mirror image of `chargeShare` for a non-positive
target, using the discharge weight and the effective lower bound. -/
def dischargeShare (p : Pair) (r : ℚ) : ℚ :=
  let g0 := max r p.lo
  if p.wd ≤ 0 then 0 else if g0 < 0 ∧ p.elo < g0 then 0 else g0

/-- Modelled from the spec: mirror image of `allocCharge` for a non-positive
target, using the discharge weights and the effective lower bounds. -/
def allocDischarge : List Pair → ℚ → List (Nat × ℚ) × ℚ
  | [], r => ([], r)
  | p :: ps, r =>
    let rest := allocDischarge ps (r - dischargeShare p r)
    ((p.bid, dischargeShare p r) :: rest.1, rest.2)

/-- Direction dispatch for the allocation (§4.4 step 3: the headroom is taken
in the direction of the clamped target). -/
def allocate (pairs : List Pair) (target : ℚ) : List (Nat × ℚ) × ℚ :=
  if 0 ≤ target then allocCharge pairs target else allocDischarge pairs target

/-- Modelled from the spec: the degenerate force-include fallback — when
`include_broken_batteries` is set and no requested pair has usable telemetry,
the requested power is split equally over the requested batteries with no
bounds checking (behaviour fixed by
`test_force_request_battery_nan_value_non_cached`, which dispatches 600 W per
battery against 500 W inverter envelopes). -/
def equalSplit (req : Request) : List (Nat × ℚ) :=
  req.batteries.map fun b => (b, req.power / (req.batteries.length : ℚ))

/-- The fixed text that precedes the known-battery list in the graph-mismatch
error message (§4.2 rule 1). -/
def noBatteryPattern (b : Nat) : String :=
  "No battery " ++ toString b ++ ", available batteries:"

/-- Modelled from the spec: the graph-mismatch error message of §4.2 rule 1,
listing the known battery ids. -/
def noBatteryMsg (b : Nat) (avail : List Nat) : String :=
  noBatteryPattern b ++ (" " ++ toString avail)

/-- Modelled from the spec: the error message used when no eligible pair
survived filtering while `include_broken_batteries` is false (§3 `Error`). -/
def noEligibleMsg : String :=
  "No batteries are working or have valid metrics"

/-- Modelled from the spec: the distribution decision of §4.4 over the
usable pairs — the zero-power bypass, the exclusion check, the inclusion
check with optional clamping, and the allocation, in the spec's order.  The
power-distributing actor module is not among the sources. -/
def planDistribute (pairs : List Pair) (req : Request) : Plan :=
  if req.power = 0 then
    .planDispatch (pairs.map fun p => (p.bid, 0)) 0
  else if (aggBounds pairs).exclusion_lower < req.power ∧
      req.power < (aggBounds pairs).exclusion_upper ∧
      (aggBounds pairs).inclusion_lower ≤ req.power ∧
      req.power ≤ (aggBounds pairs).inclusion_upper then
    .planOOB (aggBounds pairs)
  else if req.power < (aggBounds pairs).inclusion_lower ∨
      (aggBounds pairs).inclusion_upper < req.power then
    if req.adjust_power then
      .planDispatch
        (allocate pairs
          (clampQ req.power (aggBounds pairs).inclusion_lower
            (aggBounds pairs).inclusion_upper)).1
        (req.power -
          clampQ req.power (aggBounds pairs).inclusion_lower
            (aggBounds pairs).inclusion_upper +
          (allocate pairs
            (clampQ req.power (aggBounds pairs).inclusion_lower
              (aggBounds pairs).inclusion_upper)).2)
    else
      .planOOB (aggBounds pairs)
  else
    .planDispatch (allocate pairs req.power).1 (allocate pairs req.power).2

/-- Modelled from the spec: dispatch of one request to the decision stages —
the graph check of §4.2 rule 1, then telemetry resolution, then either the
degenerate force-include fallback, the no-eligible-pair error, or the
distribution of §4.4 over the usable pairs. -/
def planRequest (env : DistEnv) (req : Request) : Plan :=
  match req.batteries.find? (fun b => !(env.graph_batteries.contains b)) with
  | some b => .planError (noBatteryMsg b env.graph_batteries)
  | none =>
    if (usablePairs env req).isEmpty then
      if req.include_broken_batteries && !req.batteries.isEmpty then
        .planDispatch (equalSplit req) 0
      else
        .planError noEligibleMsg
    else
      planDistribute (usablePairs env req) req

/-- Accumulated dispatch acknowledgments of §4.4 step 7. -/
structure Ack where
  succeeded_power : ℚ
  failed_power : ℚ
  succeeded_batteries : List Nat
  failed_batteries : List Nat

/-- Fold the per-pair setpoints against the set of failed dispatches into the
succeeded/failed sums and battery sets. -/
def splitDispatch (failed : List Nat) : List (Nat × ℚ) → Ack
  | [] => ⟨0, 0, [], []⟩
  | (b, x) :: rest =>
    let a := splitDispatch failed rest
    if b ∈ failed then
      ⟨a.succeeded_power, a.failed_power + x, a.succeeded_batteries, b :: a.failed_batteries⟩
    else
      ⟨a.succeeded_power + x, a.failed_power, b :: a.succeeded_batteries, a.failed_batteries⟩

/-- Modelled from the spec: result assembly (§4.4 step 7) — sum acknowledged
power into `succeeded_power` and failures into `failed_power`, and emit
`Success` when no dispatch failed, else `PartialFailure`. -/
def assemble (failed : List Nat) : Plan → DistResult
  | .planError m => .error m
  | .planOOB b => .outOfBounds b
  | .planDispatch sps ex =>
    let a := splitDispatch failed sps
    if a.failed_batteries.isEmpty then
      .success a.succeeded_power ex a.succeeded_batteries []
    else
      .partFailure a.succeeded_power a.failed_power ex a.succeeded_batteries a.failed_batteries

/-- Modelled from the spec: one full request of the power-distributing actor:
plan, dispatch, assemble (§4.4-§4.5); the actor module is not among the
sources. -/
def processRequest (env : DistEnv) (req : Request) : DistResult :=
  assemble env.failed_dispatch (planRequest env req)

/-- The per-inverter setpoints the request dispatches (empty for the error
and out-of-bounds outcomes). -/
def dispatchedSetpoints (env : DistEnv) (req : Request) : List (Nat × ℚ) :=
  match planRequest env req with
  | .planDispatch sps _ => sps
  | _ => []

/-- The string `sub` occurs contiguously inside `s` (at the level of the
underlying character list). -/
def strContains (s sub : String) : Prop :=
  ∃ l r : List Char, s.data = l ++ sub.data ++ r

/-- Modelled from the spec: the battery-to-inverter adjacency the actor
derives from the component graph at construction (§3: each battery id maps
to exactly one inverter id); `edges` lists the graph's
(battery, inverter) connections. -/
def batInvMap (edges : List (Nat × Nat)) (b : Nat) : Option Nat :=
  (edges.find? fun q => q.1 == b).map (·.2)

/-- Modelled from the spec: the inverse inverter-to-battery adjacency, built
from the same graph edges. -/
def invBatMap (edges : List (Nat × Nat)) (i : Nat) : Option Nat :=
  (edges.find? fun q => q.2 == i).map (·.1)

/-- Battery telemetry primed by `init_component_data` of the test suite:
SoC 40 in [20, 80], capacity 98000 Wh, power bounds (-1000, 0, 0, 1000). -/
def initBattery : BatteryData where
  soc := some 40
  soc_lower := 20
  soc_upper := 80
  capacity := some 98000
  bounds := ⟨-1000, 0, 0, 1000⟩

/-- Inverter bounds primed by `init_component_data`: (-500, 0, 0, 500). -/
def initInverter : PowerBounds := ⟨-500, 0, 0, 500⟩

/-- The mock microgrid of the test suite after `init_component_data`:
batteries 9, 19, 29 paired with inverters 8, 18, 28, batteries 9 and 19
working, all telemetry primed, empty metric cache, no dispatch failures. -/
def stdEnv : DistEnv where
  graph_batteries := [9, 19, 29]
  bat_inv := fun b => b - 1
  working := [9, 19]
  latest_battery := fun b => if b = 9 ∨ b = 19 ∨ b = 29 then some initBattery else none
  cached_battery := fun _ => none
  latest_inverter := fun i => if i = 8 ∨ i = 18 ∨ i = 28 then some initInverter else none
  failed_dispatch := []

/-- The environment of `test_power_distributor_exclusion_bounds`: batteries
9 and 19 re-sent with SoC 60 and power bounds (-1000, -300, 300, 1000). -/
def exclEnv : DistEnv :=
  { stdEnv with
    latest_battery := fun b =>
      if b = 9 ∨ b = 19 then
        some ⟨some 60, 20, 80, some 98000, ⟨-1000, -300, 300, 1000⟩⟩
      else if b = 29 then some initBattery
      else none }

/-- The environment of `test_battery_soc_nan`: battery 9 re-sent with
SoC = NaN. -/
def nanSocEnv : DistEnv :=
  { stdEnv with
    latest_battery := fun b =>
      if b = 9 then some { initBattery with soc := none }
      else if b = 19 ∨ b = 29 then some initBattery
      else none }

/-- The environment of `test_battery_capacity_nan`: battery 9 re-sent with
capacity = NaN. -/
def nanCapEnv : DistEnv :=
  { stdEnv with
    latest_battery := fun b =>
      if b = 9 then some { initBattery with capacity := none }
      else if b = 19 ∨ b = 29 then some initBattery
      else none }

/-- The environment of `test_force_request_battery_nan_value_non_cached`:
battery 9 re-sent with SoC = NaN and capacity = NaN, battery 19 with
capacity = NaN, both keeping power bounds (-1000, 0, 0, 1000); the actor's
metric cache is still empty. -/
def forceNanEnv : DistEnv :=
  { stdEnv with
    latest_battery := fun b =>
      if b = 9 then some { initBattery with soc := none, capacity := none }
      else if b = 19 then some { initBattery with capacity := none }
      else if b = 29 then some initBattery
      else none }

/-- The environment of `test_use_all_batteries_none_is_working`: the status
provider reports an empty working set. -/
def noneWorkingEnv : DistEnv := { stdEnv with working := [] }

/-- The request of `test_power_distributor_one_user`: 1.2 kW over batteries
9 and 19. -/
def req1200 : Request where
  power := 1200
  batteries := [9, 19]

/-- The usable pair a battery with the `init_component_data` telemetry forms:
effective envelope [-500, 500] (inverter-limited), no exclusion band, charge
weight 98000*(80-40), discharge weight 98000*(40-20). -/
def stdPair (b : Nat) : Pair where
  bid := b
  lo := -500
  hi := 500
  elo := 0
  ehi := 0
  wc := 3920000
  wd := 1960000

/-- The usable pair a battery forms in the exclusion-bounds scenario:
battery band (-300, 300) unioned with the inverter's empty band, SoC 60. -/
def exclPair (b : Nat) : Pair where
  bid := b
  lo := -500
  hi := 500
  elo := -300
  ehi := 300
  wc := 1960000
  wd := 3920000

/-- A zero-power request over batteries 9 and 19
(`test_power_distributor_exclusion_bounds`). -/
def reqZero : Request where
  power := 0
  batteries := [9, 19]

/-- A 300 W request over batteries 9 and 19, inside the aggregate exclusion
band of the exclusion-bounds scenario. -/
def req300 : Request where
  power := 300
  batteries := [9, 19]

/-- The request of `test_power_distributor_one_user_adjust_power_consume`:
1.2 kW with `adjust_power = false`. -/
def req1200na : Request where
  power := 1200
  batteries := [9, 19]
  adjust_power := false

/-- The request of `test_power_distributor_one_user_adjust_power_supply`:
-1.2 kW with `adjust_power = false`. -/
def reqNeg1200na : Request where
  power := -1200
  batteries := [9, 19]
  adjust_power := false

/-- The request of `test_power_distributor_one_user_adjust_power_success`:
exactly 1 kW with `adjust_power = false`. -/
def req1000na : Request where
  power := 1000
  batteries := [9, 19]
  adjust_power := false

/-- The request of `test_power_distributor_invalid_battery_id`: battery 100
is not in the component graph. -/
def reqBad : Request where
  power := 1200
  batteries := [9, 100]

/-- A forced request over batteries 9 and 19
(`test_use_all_batteries_none_is_working` and
`test_force_request_battery_nan_value_non_cached`). -/
def forceReq : Request where
  power := 1200
  batteries := [9, 19]
  include_broken_batteries := true

/-- A small set of grid successors exercising all branches of
`_gen_phase_formula`: a meter, a battery (skipped), an inverter. -/
def demoSuccessors : List Component :=
  [⟨1, ComponentCategory.meter⟩, ⟨2, ComponentCategory.battery⟩,
    ⟨3, ComponentCategory.inverter⟩]

theorem genPhaseRun_eq (cs : List Component) : ∀ (idx : Nat) (builder : List FormulaStep),
    genPhaseRun idx cs builder =
      builder ++ ((cs.enumFrom idx).map fun q => claimedPhaseContribution q.1 q.2).flatten := by
  induction cs with
  | nil => intro idx builder; simp [genPhaseRun]
  | cons comp rest ih =>
    intro idx builder
    simp only [genPhaseRun, List.enumFrom, List.map_cons, List.flatten, ih,
      claimedPhaseContribution]
    cases Nat.eq_zero_or_pos idx with
    | inl h =>
      subst h
      simp only [Nat.lt_irrefl, if_false, if_pos rfl, List.nil_append, gt_iff_lt]
      by_cases h1 : comp.category = ComponentCategory.inverter ∨
          comp.category = ComponentCategory.evCharger <;>
        by_cases h2 : comp.category = ComponentCategory.meter <;>
          simp [h1, h2, List.append_assoc]
    | inr h =>
      have h0 : ¬ idx = 0 := Nat.pos_iff_ne_zero.mp h
      simp only [gt_iff_lt, h, if_pos, if_neg h0]
      by_cases h1 : comp.category = ComponentCategory.inverter ∨
          comp.category = ComponentCategory.evCharger <;>
        by_cases h2 : comp.category = ComponentCategory.meter <;>
          simp [h1, h2, List.append_assoc]

theorem chargeShare_bounds (p : Pair) (r : ℚ) (hr : 0 ≤ r) (hp : p.WF) :
    0 ≤ chargeShare p r ∧ chargeShare p r ≤ r ∧ chargeShare p r ≤ p.hi := by
  obtain ⟨h1, h2, h3, h4⟩ := hp
  simp only [chargeShare]
  split
  · exact ⟨le_refl 0, hr, by linarith⟩
  · split
    · exact ⟨le_refl 0, hr, by linarith⟩
    · refine ⟨le_min hr (by linarith), min_le_left _ _, min_le_right _ _⟩

theorem dischargeShare_bounds (p : Pair) (r : ℚ) (hr : r ≤ 0) (hp : p.WF) :
    dischargeShare p r ≤ 0 ∧ r ≤ dischargeShare p r ∧ p.lo ≤ dischargeShare p r := by
  obtain ⟨h1, h2, h3, h4⟩ := hp
  simp only [dischargeShare]
  split
  · exact ⟨le_refl 0, hr, by linarith⟩
  · split
    · exact ⟨le_refl 0, hr, by linarith⟩
    · refine ⟨max_le hr (by linarith), le_max_left _ _, le_max_right _ _⟩

theorem chargeShare_sat (p : Pair) (r : ℚ) (hr : p.hi ≤ r) (hp : p.WF)
    (hw : 0 < p.wc) : chargeShare p r = p.hi := by
  obtain ⟨h1, h2, h3, h4⟩ := hp
  have hmin : min r p.hi = p.hi := min_eq_right hr
  unfold chargeShare
  rw [if_neg (by linarith), hmin, if_neg (by rintro ⟨_, h⟩; linarith)]

theorem dischargeShare_sat (p : Pair) (r : ℚ) (hr : r ≤ p.lo) (hp : p.WF)
    (hw : 0 < p.wd) : dischargeShare p r = p.lo := by
  obtain ⟨h1, h2, h3, h4⟩ := hp
  have hmax : max r p.lo = p.lo := max_eq_right hr
  unfold dischargeShare
  rw [if_neg (by linarith), hmax, if_neg (by rintro ⟨h, h5⟩; linarith)]

theorem allocCharge_conserve (ps : List Pair) : ∀ r : ℚ,
    (((allocCharge ps r).1.map (·.2)).sum + (allocCharge ps r).2) = r := by
  induction ps with
  | nil => intro r; simp [allocCharge]
  | cons p ps ih =>
    intro r
    simp only [allocCharge, List.map_cons, List.sum_cons]
    have h := ih (r - chargeShare p r)
    linarith

theorem allocDischarge_conserve (ps : List Pair) : ∀ r : ℚ,
    (((allocDischarge ps r).1.map (·.2)).sum + (allocDischarge ps r).2) = r := by
  induction ps with
  | nil => intro r; simp [allocDischarge]
  | cons p ps ih =>
    intro r
    simp only [allocDischarge, List.map_cons, List.sum_cons]
    have h := ih (r - dischargeShare p r)
    linarith

theorem allocCharge_bids (ps : List Pair) : ∀ r : ℚ,
    (allocCharge ps r).1.map (·.1) = ps.map Pair.bid := by
  induction ps with
  | nil => intro r; simp [allocCharge]
  | cons p ps ih => intro r; simp [allocCharge, ih]

theorem allocDischarge_bids (ps : List Pair) : ∀ r : ℚ,
    (allocDischarge ps r).1.map (·.1) = ps.map Pair.bid := by
  induction ps with
  | nil => intro r; simp [allocDischarge]
  | cons p ps ih => intro r; simp [allocDischarge, ih]

theorem allocCharge_sum_bounds (ps : List Pair) : ∀ r : ℚ, 0 ≤ r →
    (∀ p ∈ ps, p.WF) →
    0 ≤ ((allocCharge ps r).1.map (·.2)).sum ∧
      ((allocCharge ps r).1.map (·.2)).sum ≤ (ps.map Pair.hi).sum := by
  induction ps with
  | nil => intro r _ _; simp [allocCharge]
  | cons p ps ih =>
    intro r hr hwf
    have hwfp : p.WF := hwf p (List.mem_cons_self p ps)
    have hsh := chargeShare_bounds p r hr hwfp
    have hih := ih (r - chargeShare p r) (by linarith [hsh.2.1])
      (fun q hq => hwf q (List.mem_cons_of_mem p hq))
    simp only [allocCharge, List.map_cons, List.sum_cons]
    exact ⟨by linarith [hih.1, hsh.1], by linarith [hih.2, hsh.2.2]⟩

theorem allocDischarge_sum_bounds (ps : List Pair) : ∀ r : ℚ, r ≤ 0 →
    (∀ p ∈ ps, p.WF) →
    ((allocDischarge ps r).1.map (·.2)).sum ≤ 0 ∧
      (ps.map Pair.lo).sum ≤ ((allocDischarge ps r).1.map (·.2)).sum := by
  induction ps with
  | nil => intro r _ _; simp [allocDischarge]
  | cons p ps ih =>
    intro r hr hwf
    have hwfp : p.WF := hwf p (List.mem_cons_self p ps)
    have hsh := dischargeShare_bounds p r hr hwfp
    have hih := ih (r - dischargeShare p r) (by linarith [hsh.2.1])
      (fun q hq => hwf q (List.mem_cons_of_mem p hq))
    simp only [allocDischarge, List.map_cons, List.sum_cons]
    exact ⟨by linarith [hih.1, hsh.1], by linarith [hih.2, hsh.2.2]⟩

theorem allocCharge_mem (ps : List Pair) : ∀ r : ℚ, 0 ≤ r → (∀ p ∈ ps, p.WF) →
    ∀ s ∈ (allocCharge ps r).1, ∃ p ∈ ps, s.1 = p.bid ∧ p.lo ≤ s.2 ∧ s.2 ≤ p.hi := by
  induction ps with
  | nil => intro r _ _ s hs; simp [allocCharge] at hs
  | cons p ps ih =>
    intro r hr hwf s hs
    have hwfp : p.WF := hwf p (List.mem_cons_self p ps)
    have hsh := chargeShare_bounds p r hr hwfp
    simp only [allocCharge, List.mem_cons] at hs
    cases hs with
    | inl h =>
      subst h
      exact ⟨p, List.mem_cons_self p ps, rfl, by linarith [hwfp.1, hwfp.2.1, hsh.1], hsh.2.2⟩
    | inr h =>
      obtain ⟨q, hq, hprop⟩ := ih (r - chargeShare p r) (by linarith [hsh.2.1])
        (fun q hq => hwf q (List.mem_cons_of_mem p hq)) s h
      exact ⟨q, List.mem_cons_of_mem p hq, hprop⟩

theorem allocDischarge_mem (ps : List Pair) : ∀ r : ℚ, r ≤ 0 → (∀ p ∈ ps, p.WF) →
    ∀ s ∈ (allocDischarge ps r).1, ∃ p ∈ ps, s.1 = p.bid ∧ p.lo ≤ s.2 ∧ s.2 ≤ p.hi := by
  induction ps with
  | nil => intro r _ _ s hs; simp [allocDischarge] at hs
  | cons p ps ih =>
    intro r hr hwf s hs
    have hwfp : p.WF := hwf p (List.mem_cons_self p ps)
    have hsh := dischargeShare_bounds p r hr hwfp
    simp only [allocDischarge, List.mem_cons] at hs
    cases hs with
    | inl h =>
      subst h
      exact ⟨p, List.mem_cons_self p ps, rfl, hsh.2.2,
        by linarith [hwfp.2.2.1, hwfp.2.2.2, hsh.1]⟩
    | inr h =>
      obtain ⟨q, hq, hprop⟩ := ih (r - dischargeShare p r) (by linarith [hsh.2.1])
        (fun q hq => hwf q (List.mem_cons_of_mem p hq)) s h
      exact ⟨q, List.mem_cons_of_mem p hq, hprop⟩

theorem sum_hi_nonneg (ps : List Pair) (hwf : ∀ p ∈ ps, p.WF) :
    0 ≤ (ps.map Pair.hi).sum := by
  apply List.sum_nonneg
  intro x hx
  obtain ⟨p, hp, hpx⟩ := List.mem_map.mp hx
  have h := hwf p hp
  linarith [h.2.2.1, h.2.2.2, hpx.symm.le, hpx.le]

theorem sum_lo_nonpos (ps : List Pair) (hwf : ∀ p ∈ ps, p.WF) :
    (ps.map Pair.lo).sum ≤ 0 := by
  induction ps with
  | nil => simp
  | cons p ps ih =>
    have h := hwf p (List.mem_cons_self p ps)
    have ht := ih (fun q hq => hwf q (List.mem_cons_of_mem p hq))
    simp only [List.map_cons, List.sum_cons]
    linarith [h.1, h.2.1]

theorem allocCharge_full (ps : List Pair) (h : ∀ p ∈ ps, p.WF ∧ 0 < p.wc) :
    allocCharge ps ((ps.map Pair.hi).sum) =
      (ps.map fun p => (p.bid, p.hi), 0) := by
  induction ps with
  | nil => simp [allocCharge]
  | cons p ps ih =>
    have hp := h p (List.mem_cons_self p ps)
    have htail : ∀ q ∈ ps, q.WF ∧ 0 < q.wc := fun q hq => h q (List.mem_cons_of_mem p hq)
    have hsum : (0:ℚ) ≤ (ps.map Pair.hi).sum := sum_hi_nonneg ps (fun q hq => (htail q hq).1)
    have hsat : chargeShare p (p.hi + (List.map Pair.hi ps).sum) = p.hi := by
      apply chargeShare_sat p _ _ hp.1 hp.2
      linarith
    simp only [List.map_cons, List.sum_cons, allocCharge, hsat]
    rw [show p.hi + (List.map Pair.hi ps).sum - p.hi = (List.map Pair.hi ps).sum by ring,
      ih htail]

theorem allocDischarge_full (ps : List Pair) (h : ∀ p ∈ ps, p.WF ∧ 0 < p.wd) :
    allocDischarge ps ((ps.map Pair.lo).sum) =
      (ps.map fun p => (p.bid, p.lo), 0) := by
  induction ps with
  | nil => simp [allocDischarge]
  | cons p ps ih =>
    have hp := h p (List.mem_cons_self p ps)
    have htail : ∀ q ∈ ps, q.WF ∧ 0 < q.wd := fun q hq => h q (List.mem_cons_of_mem p hq)
    have hsum : (ps.map Pair.lo).sum ≤ 0 := sum_lo_nonpos ps (fun q hq => (htail q hq).1)
    have hsat : dischargeShare p (p.lo + (List.map Pair.lo ps).sum) = p.lo := by
      apply dischargeShare_sat p _ _ hp.1 hp.2
      linarith
    simp only [List.map_cons, List.sum_cons, allocDischarge, hsat]
    rw [show p.lo + (List.map Pair.lo ps).sum - p.lo = (List.map Pair.lo ps).sum by ring,
      ih htail]

theorem splitDispatch_sum (failed : List Nat) (sps : List (Nat × ℚ)) :
    (splitDispatch failed sps).succeeded_power + (splitDispatch failed sps).failed_power =
      (sps.map (·.2)).sum := by
  induction sps with
  | nil => simp [splitDispatch]
  | cons s rest ih =>
    obtain ⟨b, x⟩ := s
    by_cases hb : b ∈ failed
    · simp [splitDispatch, hb]
      linarith
    · simp [splitDispatch, hb]
      linarith

theorem splitDispatch_nofail (sps : List (Nat × ℚ)) :
    splitDispatch [] sps = ⟨(sps.map (·.2)).sum, 0, sps.map (·.1), []⟩ := by
  induction sps with
  | nil => simp [splitDispatch]
  | cons s rest ih =>
    obtain ⟨b, x⟩ := s
    simp [splitDispatch, ih, add_comm]

theorem splitDispatch_fb_nil (failed : List Nat) (sps : List (Nat × ℚ))
    (h : (splitDispatch failed sps).failed_batteries = []) :
    (splitDispatch failed sps).failed_power = 0 := by
  induction sps with
  | nil => simp [splitDispatch]
  | cons s rest ih =>
    obtain ⟨b, x⟩ := s
    by_cases hb : b ∈ failed
    · simp only [splitDispatch, if_pos hb] at h
      exact absurd h (List.cons_ne_nil _ _)
    · simp only [splitDispatch, if_neg hb] at h ⊢
      exact ih h

theorem splitDispatch_sb_subset (failed : List Nat) (sps : List (Nat × ℚ)) :
    (splitDispatch failed sps).succeeded_batteries ⊆ sps.map (·.1) := by
  induction sps with
  | nil => simp [splitDispatch]
  | cons s rest ih =>
    obtain ⟨b, x⟩ := s
    by_cases hb : b ∈ failed
    · simp only [splitDispatch, if_pos hb, List.map_cons]
      exact ih.trans (List.subset_cons_self _ _)
    · simp only [splitDispatch, if_neg hb, List.map_cons]
      exact List.cons_subset_cons b ih

theorem equalSplit_sum (req : Request) (hne : req.batteries ≠ []) :
    ((equalSplit req).map (·.2)).sum = req.power := by
  unfold equalSplit
  rw [List.map_map]
  have hc : ((fun x : Nat × ℚ => x.2) ∘ fun b => (b, req.power / (req.batteries.length : ℚ)))
      = fun _ => req.power / (req.batteries.length : ℚ) := rfl
  have hlen : (req.batteries.length : ℚ) ≠ 0 :=
    Nat.cast_ne_zero.mpr (fun h => hne (List.length_eq_zero.mp h))
  rw [hc, List.map_const', List.sum_replicate, nsmul_eq_mul, mul_comm,
    div_mul_cancel₀ _ hlen]

theorem allocate_conserve (pairs : List Pair) (t : ℚ) :
    ((allocate pairs t).1.map (·.2)).sum + (allocate pairs t).2 = t := by
  unfold allocate
  by_cases h : 0 ≤ t
  · rw [if_pos h]; exact allocCharge_conserve pairs t
  · rw [if_neg h]; exact allocDischarge_conserve pairs t

theorem zeroSetpoints_sum (pairs : List Pair) :
    ((pairs.map fun p => (p.bid, (0:ℚ))).map (·.2)).sum = 0 := by
  rw [List.map_map]
  have hc : ((fun x : Nat × ℚ => x.2) ∘ fun p : Pair => (p.bid, (0:ℚ))) = fun _ => (0:ℚ) := rfl
  rw [hc, List.map_const', List.sum_replicate, smul_zero]

theorem planDistribute_conserve (pairs : List Pair) (req : Request)
    (sps : List (Nat × ℚ)) (ex : ℚ)
    (h : planDistribute pairs req = .planDispatch sps ex) :
    (sps.map (·.2)).sum + ex = req.power := by
  unfold planDistribute at h
  by_cases h0 : req.power = 0
  · rw [if_pos h0] at h
    obtain ⟨h1, h2⟩ := Plan.planDispatch.inj h
    subst h1; subst h2
    rw [zeroSetpoints_sum, h0, add_zero]
  · rw [if_neg h0] at h
    by_cases hex : (aggBounds pairs).exclusion_lower < req.power ∧
        req.power < (aggBounds pairs).exclusion_upper ∧
        (aggBounds pairs).inclusion_lower ≤ req.power ∧
        req.power ≤ (aggBounds pairs).inclusion_upper
    · rw [if_pos hex] at h; exact absurd h (by simp)
    · rw [if_neg hex] at h
      by_cases hin : req.power < (aggBounds pairs).inclusion_lower ∨
          (aggBounds pairs).inclusion_upper < req.power
      · rw [if_pos hin] at h
        by_cases hadj : req.adjust_power = true
        · rw [if_pos hadj] at h
          obtain ⟨h1, h2⟩ := Plan.planDispatch.inj h
          subst h1; subst h2
          have hc := allocate_conserve pairs
            (clampQ req.power (aggBounds pairs).inclusion_lower (aggBounds pairs).inclusion_upper)
          linarith
        · rw [if_neg hadj] at h; exact absurd h (by simp)
      · rw [if_neg hin] at h
        obtain ⟨h1, h2⟩ := Plan.planDispatch.inj h
        subst h1; subst h2
        exact allocate_conserve pairs req.power

theorem plan_conserve (env : DistEnv) (req : Request)
    (sps : List (Nat × ℚ)) (ex : ℚ)
    (h : planRequest env req = .planDispatch sps ex) :
    (sps.map (·.2)).sum + ex = req.power := by
  unfold planRequest at h
  cases hf : req.batteries.find? (fun b => !(env.graph_batteries.contains b)) with
  | some b => rw [hf] at h; exact absurd h (by simp)
  | none =>
    rw [hf] at h
    by_cases hemp : (usablePairs env req).isEmpty = true
    · rw [if_pos hemp] at h
      by_cases hfb : (req.include_broken_batteries && !req.batteries.isEmpty) = true
      · rw [if_pos hfb] at h
        obtain ⟨h1, h2⟩ := Plan.planDispatch.inj h
        subst h1; subst h2
        rw [add_zero]
        apply equalSplit_sum
        intro hnil
        rw [hnil] at hfb
        simp at hfb
      · rw [if_neg hfb] at h; exact absurd h (by simp)
    · rw [if_neg hemp] at h
      exact planDistribute_conserve _ _ _ _ h

theorem planRequest_eq_distribute (env : DistEnv) (req : Request)
    (hgraph : ∀ b ∈ req.batteries, b ∈ env.graph_batteries)
    (hu : usablePairs env req ≠ []) :
    planRequest env req = planDistribute (usablePairs env req) req := by
  have hfind : req.batteries.find? (fun b => !(env.graph_batteries.contains b)) = none := by
    apply List.find?_eq_none.mpr
    intro x hx
    simp [hgraph x hx]
  have hemp : (usablePairs env req).isEmpty = false := by
    cases h' : usablePairs env req with
    | nil => exact absurd h' hu
    | cons a l => rfl
  unfold planRequest
  rw [hfind, hemp]
  simp

theorem pairFor_init (env : DistEnv) (force : Bool) (b : Nat)
    (hb : env.latest_battery b = some initBattery)
    (hi : env.latest_inverter (env.bat_inv b) = some initInverter) :
    pairFor env force b = some (stdPair b) := by
  cases force <;>
    norm_num [pairFor, effectiveBattery, hb, hi, mkPair, initBattery, initInverter,
      stdPair, min_def, max_def, Option.orElse]

theorem usable_std (req : Request) (hb : req.batteries = [9, 19])
    (hf : req.include_broken_batteries = false) :
    usablePairs stdEnv req = [stdPair 9, stdPair 19] := by
  have h9 : pairFor stdEnv false 9 = some (stdPair 9) :=
    pairFor_init stdEnv false 9 (by norm_num [stdEnv]) (by norm_num [stdEnv])
  have h19 : pairFor stdEnv false 19 = some (stdPair 19) :=
    pairFor_init stdEnv false 19 (by norm_num [stdEnv]) (by norm_num [stdEnv])
  have hw : stdEnv.working = [9, 19] := rfl
  simp [usablePairs, eligibleIds, hb, hf, hw, h9, h19]

theorem agg_std : aggBounds [stdPair 9, stdPair 19] = ⟨-1000, 0, 0, 1000⟩ := by
  norm_num [aggBounds, stdPair]

theorem plan_1200 : planRequest stdEnv req1200 =
    Plan.planDispatch [(9, 500), (19, 500)] 200 := by
  rw [planRequest_eq_distribute stdEnv req1200 (by decide)
    (by rw [usable_std req1200 rfl rfl]; simp),
    usable_std req1200 rfl rfl]
  unfold planDistribute
  rw [agg_std]
  norm_num [req1200, clampQ, allocate, allocCharge, chargeShare,
    stdPair, min_def, max_def]

theorem eval_oneUser : processRequest stdEnv req1200 =
    DistResult.success 1000 200 [9, 19] [] := by
  unfold processRequest
  rw [plan_1200]
  show assemble [] _ = _
  simp only [assemble]
  rw [splitDispatch_nofail]
  norm_num

theorem exclBattery_eval (b : Nat) (hb : b = 9 ∨ b = 19) :
    exclEnv.latest_battery b =
      some ⟨some 60, 20, 80, some 98000, ⟨-1000, -300, 300, 1000⟩⟩ := by
  cases hb with
  | inl h => subst h; rfl
  | inr h => subst h; rfl

theorem pairFor_excl (b : Nat) (hb : b = 9 ∨ b = 19) :
    pairFor exclEnv false b = some (exclPair b) := by
  have hbat := exclBattery_eval b hb
  have hi : exclEnv.latest_inverter (exclEnv.bat_inv b) = some initInverter := by
    cases hb with
    | inl h => subst h; rfl
    | inr h => subst h; rfl
  norm_num [pairFor, effectiveBattery, hbat, hi, mkPair, initInverter,
    exclPair, min_def, max_def]

theorem usable_excl (req : Request) (hb : req.batteries = [9, 19])
    (hf : req.include_broken_batteries = false) :
    usablePairs exclEnv req = [exclPair 9, exclPair 19] := by
  have h9 := pairFor_excl 9 (Or.inl rfl)
  have h19 := pairFor_excl 19 (Or.inr rfl)
  have hw : exclEnv.working = [9, 19] := rfl
  simp [usablePairs, eligibleIds, hb, hf, hw, h9, h19]

theorem agg_excl : aggBounds [exclPair 9, exclPair 19] = ⟨-1000, -600, 600, 1000⟩ := by
  norm_num [aggBounds, exclPair]

theorem nanSoc_pairFor9 : pairFor nanSocEnv false 9 = none := by
  have hb : nanSocEnv.latest_battery 9 = some { initBattery with soc := none } := rfl
  norm_num [pairFor, effectiveBattery, hb]

theorem nanCap_pairFor9 : pairFor nanCapEnv false 9 = none := by
  have hb : nanCapEnv.latest_battery 9 = some { initBattery with capacity := none } := rfl
  norm_num [pairFor, effectiveBattery, hb, initBattery]

theorem usable_nanSoc : usablePairs nanSocEnv req1200 = [stdPair 19] := by
  have h19 : pairFor nanSocEnv false 19 = some (stdPair 19) :=
    pairFor_init nanSocEnv false 19 rfl rfl
  have hw : nanSocEnv.working = [9, 19] := rfl
  simp [usablePairs, eligibleIds, req1200, hw, nanSoc_pairFor9, h19]

theorem usable_nanCap : usablePairs nanCapEnv req1200 = [stdPair 19] := by
  have h19 : pairFor nanCapEnv false 19 = some (stdPair 19) :=
    pairFor_init nanCapEnv false 19 rfl rfl
  have hw : nanCapEnv.working = [9, 19] := rfl
  simp [usablePairs, eligibleIds, req1200, hw, nanCap_pairFor9, h19]

theorem agg_single : aggBounds [stdPair 19] = ⟨-500, 0, 0, 500⟩ := by
  norm_num [aggBounds, stdPair]

theorem plan_nanSoc : planRequest nanSocEnv req1200 = Plan.planDispatch [(19, 500)] 700 := by
  rw [planRequest_eq_distribute nanSocEnv req1200 (by decide)
    (by rw [usable_nanSoc]; simp), usable_nanSoc]
  unfold planDistribute
  rw [agg_single]
  norm_num [req1200, clampQ, allocate, allocCharge, chargeShare,
    stdPair, min_def, max_def]

theorem plan_nanCap : planRequest nanCapEnv req1200 = Plan.planDispatch [(19, 500)] 700 := by
  rw [planRequest_eq_distribute nanCapEnv req1200 (by decide)
    (by rw [usable_nanCap]; simp), usable_nanCap]
  unfold planDistribute
  rw [agg_single]
  norm_num [req1200, clampQ, allocate, allocCharge, chargeShare,
    stdPair, min_def, max_def]

theorem eval_nanSoc : processRequest nanSocEnv req1200 =
    DistResult.success 500 700 [19] [] := by
  unfold processRequest
  rw [plan_nanSoc]
  show assemble [] _ = _
  simp only [assemble]
  rw [splitDispatch_nofail]
  norm_num

theorem eval_nanCap : processRequest nanCapEnv req1200 =
    DistResult.success 500 700 [19] [] := by
  unfold processRequest
  rw [plan_nanCap]
  show assemble [] _ = _
  simp only [assemble]
  rw [splitDispatch_nofail]
  norm_num

theorem usable_forceNan : usablePairs forceNanEnv forceReq = [] := by
  have h9 : pairFor forceNanEnv true 9 = none := by
    have hb : forceNanEnv.latest_battery 9 =
        some { initBattery with soc := none, capacity := none } := rfl
    have hc : forceNanEnv.cached_battery 9 = none := rfl
    norm_num [pairFor, effectiveBattery, hb, hc, Option.orElse]
  have h19 : pairFor forceNanEnv true 19 = none := by
    have hb : forceNanEnv.latest_battery 19 = some { initBattery with capacity := none } := rfl
    have hc : forceNanEnv.cached_battery 19 = none := rfl
    norm_num [pairFor, effectiveBattery, hb, hc, initBattery, Option.orElse]
  simp [usablePairs, eligibleIds, forceReq, h9, h19]

theorem plan_forceNan : planRequest forceNanEnv forceReq =
    Plan.planDispatch [(9, 600), (19, 600)] 0 := by
  have hfind : forceReq.batteries.find?
      (fun b => !(forceNanEnv.graph_batteries.contains b)) = none := by decide
  unfold planRequest
  rw [hfind, usable_forceNan]
  norm_num [equalSplit, forceReq]

theorem eval_forceNan : processRequest forceNanEnv forceReq =
    DistResult.success 1200 0 [9, 19] [] := by
  unfold processRequest
  rw [plan_forceNan]
  show assemble [] _ = _
  simp only [assemble]
  rw [splitDispatch_nofail]
  norm_num

theorem usable_noneWorking : usablePairs noneWorkingEnv forceReq =
    [stdPair 9, stdPair 19] := by
  have h9 : pairFor noneWorkingEnv true 9 = some (stdPair 9) :=
    pairFor_init noneWorkingEnv true 9 rfl rfl
  have h19 : pairFor noneWorkingEnv true 19 = some (stdPair 19) :=
    pairFor_init noneWorkingEnv true 19 rfl rfl
  simp [usablePairs, eligibleIds, forceReq, h9, h19]

theorem plan_noneWorking : planRequest noneWorkingEnv forceReq =
    Plan.planDispatch [(9, 500), (19, 500)] 200 := by
  rw [planRequest_eq_distribute noneWorkingEnv forceReq (by decide)
    (by rw [usable_noneWorking]; simp), usable_noneWorking]
  unfold planDistribute
  rw [agg_std]
  norm_num [forceReq, clampQ, allocate, allocCharge, chargeShare,
    stdPair, min_def, max_def]

theorem eval_noneWorking : processRequest noneWorkingEnv forceReq =
    DistResult.success 1000 200 [9, 19] [] := by
  unfold processRequest
  rw [plan_noneWorking]
  show assemble [] _ = _
  simp only [assemble]
  rw [splitDispatch_nofail]
  norm_num


/-- Claim C1: for every request whose result is `Success` or `PartialFailure`, the
sum `succeeded_power + excess_power + failed_power` equals `request.power`
to within 1e-9 W.  In the model's exact rational arithmetic the conservation
holds exactly, which implies the stated tolerance. -/
theorem power_conservation (env : DistEnv) (req : Request)
    (h : (processRequest env req).isSuccessOrPartFail = true) :
    |(processRequest env req).succeededPower + (processRequest env req).excessPower +
      (processRequest env req).failedPower - req.power| ≤ 1 / 1000000000 := by
  unfold processRequest at h ⊢
  cases hp : planRequest env req with
  | planError m =>
    rw [hp] at h
    simp [assemble, DistResult.isSuccessOrPartFail] at h
  | planOOB bd =>
    rw [hp] at h
    simp [assemble, DistResult.isSuccessOrPartFail] at h
  | planDispatch sps ex =>
    have hsum : (sps.map (·.2)).sum + ex = req.power := plan_conserve env req sps ex hp
    have h2 := splitDispatch_sum env.failed_dispatch sps
    cases hl : (splitDispatch env.failed_dispatch sps).failed_batteries with
    | nil =>
      have h1 := splitDispatch_fb_nil env.failed_dispatch sps hl
      have h3 : assemble env.failed_dispatch (Plan.planDispatch sps ex) =
          DistResult.success (splitDispatch env.failed_dispatch sps).succeeded_power ex
            (splitDispatch env.failed_dispatch sps).succeeded_batteries [] := by
        simp [assemble, hl]
      rw [h3]
      simp only [DistResult.succeededPower, DistResult.excessPower, DistResult.failedPower]
      rw [show (splitDispatch env.failed_dispatch sps).succeeded_power + ex + 0 - req.power
        = 0 from by linarith]
      norm_num
    | cons b l =>
      have h3 : assemble env.failed_dispatch (Plan.planDispatch sps ex) =
          DistResult.partFailure (splitDispatch env.failed_dispatch sps).succeeded_power
            (splitDispatch env.failed_dispatch sps).failed_power ex
            (splitDispatch env.failed_dispatch sps).succeeded_batteries (b :: l) := by
        simp [assemble, hl]
      rw [h3]
      simp only [DistResult.succeededPower, DistResult.excessPower, DistResult.failedPower]
      rw [show (splitDispatch env.failed_dispatch sps).succeeded_power + ex +
        (splitDispatch env.failed_dispatch sps).failed_power - req.power = 0 from by linarith]
      norm_num

/-- Closed instance of `power_conservation` at the scenario of
`test_power_distributor_one_user` (request of 1.2 kW over batteries 9 and
19, result `Success` with 1000 W succeeded and 200 W excess). -/
theorem power_conservation_witness :
    |(processRequest stdEnv req1200).succeededPower +
      (processRequest stdEnv req1200).excessPower +
      (processRequest stdEnv req1200).failedPower - req1200.power| ≤ 1 / 1000000000 :=
  power_conservation stdEnv req1200 (by rw [eval_oneUser]; rfl)


theorem map_snd_pairs (f : Pair → ℚ) (ps : List Pair) :
    ((ps.map fun p => (p.bid, f p)).map (·.2)) = ps.map f := by
  rw [List.map_map]
  rfl

theorem map_fst_pairs (f : Pair → ℚ) (ps : List Pair) :
    ((ps.map fun p => (p.bid, f p)).map (·.1)) = ps.map Pair.bid := by
  rw [List.map_map]
  rfl

/-- Claim C3: a request of exactly 0 W with a non-empty usable pair set is
answered with `Success`, zero succeeded power and zero excess power, and in
particular is never `OutOfBounds` — the zero-power bypass precedes the
exclusion check. -/
theorem zero_power_request_success (env : DistEnv) (req : Request)
    (hfail : env.failed_dispatch = [])
    (hgraph : ∀ b ∈ req.batteries, b ∈ env.graph_batteries)
    (hu : usablePairs env req ≠ [])
    (hp : req.power = 0) :
    processRequest env req =
      DistResult.success 0 0 ((usablePairs env req).map Pair.bid) [] := by
  unfold processRequest
  rw [planRequest_eq_distribute env req hgraph hu]
  unfold planDistribute
  rw [if_pos hp, hfail]
  simp only [assemble]
  rw [splitDispatch_nofail]
  have h1 := zeroSetpoints_sum (usablePairs env req)
  have h2 := map_fst_pairs (fun _ => (0:ℚ)) (usablePairs env req)
  simp only [h1, h2]
  simp

/-- Claim C4: a non-zero requested power strictly inside the aggregate
exclusion band and within the aggregate inclusion interval is rejected as
`OutOfBounds` carrying the aggregate bounds, whose exclusion endpoints are
the sums of the per-pair exclusion endpoints (`aggBounds`). -/
theorem exclusion_band_rejection (env : DistEnv) (req : Request)
    (hgraph : ∀ b ∈ req.batteries, b ∈ env.graph_batteries)
    (hu : usablePairs env req ≠ [])
    (hp0 : req.power ≠ 0)
    (hlo : (aggBounds (usablePairs env req)).exclusion_lower < req.power)
    (hhi : req.power < (aggBounds (usablePairs env req)).exclusion_upper)
    (hil : (aggBounds (usablePairs env req)).inclusion_lower ≤ req.power)
    (hiu : req.power ≤ (aggBounds (usablePairs env req)).inclusion_upper) :
    processRequest env req =
      DistResult.outOfBounds (aggBounds (usablePairs env req)) := by
  unfold processRequest
  rw [planRequest_eq_distribute env req hgraph hu]
  unfold planDistribute
  rw [if_neg hp0, if_pos ⟨hlo, hhi, hil, hiu⟩]
  rfl

/-- Claim C6: a request naming a battery id absent from the component graph
is answered with an `Error` whose message contains the literal substring
"No battery <id>, available batteries:" for that id, and no other result
variant is produced for the request. -/
theorem unknown_battery_error (env : DistEnv) (req : Request) (b : Nat)
    (hfind : req.batteries.find? (fun x => !(env.graph_batteries.contains x)) = some b) :
    processRequest env req = DistResult.error (noBatteryMsg b env.graph_batteries) ∧
    b ∈ req.batteries ∧ b ∉ env.graph_batteries ∧
    strContains (noBatteryMsg b env.graph_batteries) (noBatteryPattern b) := by
  refine ⟨?_, List.mem_of_find?_eq_some hfind, ?_, ?_⟩
  · unfold processRequest planRequest
    rw [hfind]
    rfl
  · have h := List.find?_some hfind
    simpa using h
  · refine ⟨[], (" " ++ toString env.graph_batteries).data, ?_⟩
    show (noBatteryPattern b ++ (" " ++ toString env.graph_batteries)).data = _
    rw [String.data_append]
    simp


theorem chargeShare_zero (p : Pair) (hp : p.WF) : chargeShare p 0 = 0 := by
  obtain ⟨h1, h2, h3, h4⟩ := hp
  have hmin : min (0:ℚ) p.hi = 0 := min_eq_left (by linarith)
  simp only [chargeShare, hmin]
  split
  · rfl
  · rw [if_neg (by rintro ⟨h5, _⟩; exact absurd h5 (lt_irrefl 0))]

theorem allocCharge_zero (ps : List Pair) (h : ∀ p ∈ ps, p.WF) :
    allocCharge ps 0 = (ps.map fun p => (p.bid, 0), 0) := by
  induction ps with
  | nil => simp [allocCharge]
  | cons p ps ih =>
    have hp := chargeShare_zero p (h p (List.mem_cons_self p ps))
    simp only [allocCharge, hp, List.map_cons, sub_zero]
    rw [ih (fun q hq => h q (List.mem_cons_of_mem p hq))]

/-- Claim C5: for a requested power outside the aggregate inclusion
interval, `adjust_power = false` yields `OutOfBounds` with the aggregate
bounds, and `adjust_power = true` clamps the power to the nearest inclusion
endpoint with the excess equal to the requested power minus the clamped
value; a request exactly equal to the inclusion upper bound with
`adjust_power = false` yields `Success` with zero excess.  The dispatch is
assumed acknowledged (`failed_dispatch = []`) and every usable pair is
assumed well-formed with positive SoC-derived weights, as in the test
scenarios. -/
theorem inclusion_bounds_handling (env : DistEnv) (req : Request)
    (hfail : env.failed_dispatch = [])
    (hgraph : ∀ b ∈ req.batteries, b ∈ env.graph_batteries)
    (hu : usablePairs env req ≠ [])
    (hwf : ∀ p ∈ usablePairs env req, p.WF)
    (hpos : ∀ p ∈ usablePairs env req, 0 < p.wc ∧ 0 < p.wd) :
    (((req.power < (aggBounds (usablePairs env req)).inclusion_lower ∨
        (aggBounds (usablePairs env req)).inclusion_upper < req.power) ∧
        req.adjust_power = false) →
      processRequest env req = DistResult.outOfBounds (aggBounds (usablePairs env req))) ∧
    (((req.power < (aggBounds (usablePairs env req)).inclusion_lower ∨
        (aggBounds (usablePairs env req)).inclusion_upper < req.power) ∧
        req.adjust_power = true) →
      processRequest env req = DistResult.success
        (clampQ req.power (aggBounds (usablePairs env req)).inclusion_lower
          (aggBounds (usablePairs env req)).inclusion_upper)
        (req.power - clampQ req.power (aggBounds (usablePairs env req)).inclusion_lower
          (aggBounds (usablePairs env req)).inclusion_upper)
        ((usablePairs env req).map Pair.bid) []) ∧
    ((req.power = (aggBounds (usablePairs env req)).inclusion_upper ∧
        req.adjust_power = false) →
      processRequest env req = DistResult.success req.power 0
        ((usablePairs env req).map Pair.bid) []) := by
  have e1 : (aggBounds (usablePairs env req)).inclusion_lower =
      ((usablePairs env req).map Pair.lo).sum := rfl
  have e2 : (aggBounds (usablePairs env req)).inclusion_upper =
      ((usablePairs env req).map Pair.hi).sum := rfl
  have e3 : (aggBounds (usablePairs env req)).exclusion_lower =
      ((usablePairs env req).map Pair.elo).sum := rfl
  have e4 : (aggBounds (usablePairs env req)).exclusion_upper =
      ((usablePairs env req).map Pair.ehi).sum := rfl
  have hle1 : ((usablePairs env req).map Pair.lo).sum ≤ 0 := sum_lo_nonpos _ hwf
  have hle2 : (0:ℚ) ≤ ((usablePairs env req).map Pair.hi).sum := sum_hi_nonneg _ hwf
  have hee : ((usablePairs env req).map Pair.ehi).sum ≤
      ((usablePairs env req).map Pair.hi).sum :=
    List.sum_le_sum (fun p hp => (hwf p hp).2.2.2)
  have hel : ((usablePairs env req).map Pair.lo).sum ≤
      ((usablePairs env req).map Pair.elo).sum :=
    List.sum_le_sum (fun p hp => (hwf p hp).1)
  refine ⟨?_, ?_, ?_⟩
  · rintro ⟨hout, hadj⟩
    have hp0 : req.power ≠ 0 := by
      rcases hout with h | h
      · rw [e1] at h; intro hz; rw [hz] at h; linarith
      · rw [e2] at h; intro hz; rw [hz] at h; linarith
    have hexcl : ¬((aggBounds (usablePairs env req)).exclusion_lower < req.power ∧
        req.power < (aggBounds (usablePairs env req)).exclusion_upper ∧
        (aggBounds (usablePairs env req)).inclusion_lower ≤ req.power ∧
        req.power ≤ (aggBounds (usablePairs env req)).inclusion_upper) := by
      rintro ⟨_, _, h3, h4⟩
      rcases hout with h | h
      · exact absurd h3 (not_le.mpr h)
      · exact absurd h4 (not_le.mpr h)
    unfold processRequest
    rw [planRequest_eq_distribute env req hgraph hu]
    unfold planDistribute
    rw [if_neg hp0, if_neg hexcl, if_pos hout, if_neg (by simp [hadj])]
    rfl
  · rintro ⟨hout, hadj⟩
    have hp0 : req.power ≠ 0 := by
      rcases hout with h | h
      · rw [e1] at h; intro hz; rw [hz] at h; linarith
      · rw [e2] at h; intro hz; rw [hz] at h; linarith
    have hexcl : ¬((aggBounds (usablePairs env req)).exclusion_lower < req.power ∧
        req.power < (aggBounds (usablePairs env req)).exclusion_upper ∧
        (aggBounds (usablePairs env req)).inclusion_lower ≤ req.power ∧
        req.power ≤ (aggBounds (usablePairs env req)).inclusion_upper) := by
      rintro ⟨_, _, h3, h4⟩
      rcases hout with h | h
      · exact absurd h3 (not_le.mpr h)
      · exact absurd h4 (not_le.mpr h)
    unfold processRequest
    rw [planRequest_eq_distribute env req hgraph hu]
    unfold planDistribute
    rw [if_neg hp0, if_neg hexcl, if_pos hout, if_pos hadj, hfail]
    rcases hout with hlt | hgt
    · have hclamp : clampQ req.power (aggBounds (usablePairs env req)).inclusion_lower
          (aggBounds (usablePairs env req)).inclusion_upper =
          ((usablePairs env req).map Pair.lo).sum := by
        rw [e1] at hlt ⊢
        rw [e2]
        unfold clampQ
        rw [min_eq_right (by linarith), max_eq_left (le_of_lt hlt)]
      rw [hclamp]
      by_cases hlz : ((usablePairs env req).map Pair.lo).sum < 0
      · have hall : allocate (usablePairs env req) (((usablePairs env req).map Pair.lo).sum) =
            ((usablePairs env req).map fun p => (p.bid, p.lo), 0) := by
          unfold allocate
          rw [if_neg (not_le.mpr hlz)]
          exact allocDischarge_full _ (fun p hp => ⟨hwf p hp, (hpos p hp).2⟩)
        rw [hall]
        simp only [assemble]
        rw [splitDispatch_nofail, map_snd_pairs, map_fst_pairs]
        norm_num
      · have h0 : ((usablePairs env req).map Pair.lo).sum = 0 :=
          le_antisymm hle1 (not_lt.mp hlz)
        rw [h0]
        have hall : allocate (usablePairs env req) 0 =
            ((usablePairs env req).map fun p => (p.bid, 0), 0) := by
          unfold allocate
          rw [if_pos (le_refl 0)]
          exact allocCharge_zero _ hwf
        rw [hall]
        simp only [assemble]
        rw [splitDispatch_nofail, map_fst_pairs]
        have hz := zeroSetpoints_sum (usablePairs env req)
        simp only [hz]
        norm_num
    · have hclamp : clampQ req.power (aggBounds (usablePairs env req)).inclusion_lower
          (aggBounds (usablePairs env req)).inclusion_upper =
          ((usablePairs env req).map Pair.hi).sum := by
        rw [e2] at hgt ⊢
        rw [e1]
        unfold clampQ
        rw [min_eq_left (le_of_lt hgt), max_eq_right (by linarith)]
      rw [hclamp]
      have hall : allocate (usablePairs env req) (((usablePairs env req).map Pair.hi).sum) =
          ((usablePairs env req).map fun p => (p.bid, p.hi), 0) := by
        unfold allocate
        rw [if_pos hle2]
        exact allocCharge_full _ (fun p hp => ⟨hwf p hp, (hpos p hp).1⟩)
      rw [hall]
      simp only [assemble]
      rw [splitDispatch_nofail, map_snd_pairs, map_fst_pairs]
      norm_num
  · rintro ⟨hpe, hadj⟩
    unfold processRequest
    rw [planRequest_eq_distribute env req hgraph hu]
    unfold planDistribute
    by_cases hp0 : req.power = 0
    · rw [if_pos hp0, hfail]
      simp only [assemble]
      rw [splitDispatch_nofail, map_fst_pairs]
      have hz := zeroSetpoints_sum (usablePairs env req)
      simp only [hz]
      rw [hp0]
      norm_num
    · have hexcl : ¬((aggBounds (usablePairs env req)).exclusion_lower < req.power ∧
          req.power < (aggBounds (usablePairs env req)).exclusion_upper ∧
          (aggBounds (usablePairs env req)).inclusion_lower ≤ req.power ∧
          req.power ≤ (aggBounds (usablePairs env req)).inclusion_upper) := by
        rintro ⟨_, h2, _, _⟩
        rw [e4] at h2
        rw [hpe, e2] at h2
        linarith
      have hincl : ¬(req.power < (aggBounds (usablePairs env req)).inclusion_lower ∨
          (aggBounds (usablePairs env req)).inclusion_upper < req.power) := by
        rintro (h | h)
        · rw [e1] at h; rw [hpe, e2] at h; linarith
        · rw [hpe] at h; exact absurd h (lt_irrefl _)
      rw [if_neg hp0, if_neg hexcl, if_neg hincl, hfail]
      have hall : allocate (usablePairs env req) req.power =
          ((usablePairs env req).map fun p => (p.bid, p.hi), 0) := by
        rw [hpe, e2]
        unfold allocate
        rw [if_pos hle2]
        exact allocCharge_full _ (fun p hp => ⟨hwf p hp, (hpos p hp).1⟩)
      rw [hall]
      simp only [assemble]
      rw [splitDispatch_nofail, map_snd_pairs, map_fst_pairs]
      rw [hpe, e2]
      norm_num


theorem allocate_bids (ps : List Pair) (t : ℚ) :
    (allocate ps t).1.map (·.1) = ps.map Pair.bid := by
  unfold allocate
  by_cases h : 0 ≤ t
  · rw [if_pos h]; exact allocCharge_bids ps t
  · rw [if_neg h]; exact allocDischarge_bids ps t

theorem allocate_mem (ps : List Pair) (t : ℚ) (hwf : ∀ p ∈ ps, p.WF) :
    ∀ s ∈ (allocate ps t).1, ∃ p ∈ ps, s.1 = p.bid ∧ p.lo ≤ s.2 ∧ s.2 ≤ p.hi := by
  unfold allocate
  by_cases h : 0 ≤ t
  · rw [if_pos h]; exact allocCharge_mem ps t h hwf
  · rw [if_neg h]; exact allocDischarge_mem ps t (le_of_not_le h) hwf

theorem allocate_sum_bounds (ps : List Pair) (t : ℚ) (hwf : ∀ p ∈ ps, p.WF) :
    (ps.map Pair.lo).sum ≤ ((allocate ps t).1.map (·.2)).sum ∧
      ((allocate ps t).1.map (·.2)).sum ≤ (ps.map Pair.hi).sum := by
  unfold allocate
  by_cases h : 0 ≤ t
  · rw [if_pos h]
    have hc := allocCharge_sum_bounds ps t h hwf
    exact ⟨le_trans (sum_lo_nonpos ps hwf) hc.1, hc.2⟩
  · rw [if_neg h]
    have hc := allocDischarge_sum_bounds ps t (le_of_not_le h) hwf
    exact ⟨hc.2, le_trans hc.1 (sum_hi_nonneg ps hwf)⟩

theorem plan_dispatch_cases (env : DistEnv) (req : Request)
    (sps : List (Nat × ℚ)) (ex : ℚ)
    (h : planRequest env req = .planDispatch sps ex) :
    (usablePairs env req = [] ∧ req.include_broken_batteries = true ∧
      sps = equalSplit req) ∨
    (sps = (usablePairs env req).map fun p => (p.bid, (0:ℚ))) ∨
    (∃ t : ℚ, sps = (allocate (usablePairs env req) t).1) := by
  unfold planRequest at h
  cases hf : req.batteries.find? (fun b => !(env.graph_batteries.contains b)) with
  | some b => rw [hf] at h; exact absurd h (by simp)
  | none =>
    rw [hf] at h
    by_cases hemp : (usablePairs env req).isEmpty = true
    · rw [if_pos hemp] at h
      by_cases hfb : (req.include_broken_batteries && !req.batteries.isEmpty) = true
      · rw [if_pos hfb] at h
        have hforce : req.include_broken_batteries = true := by
          cases hq : req.include_broken_batteries
          · rw [hq] at hfb; simp at hfb
          · rfl
        exact Or.inl ⟨List.isEmpty_iff.mp hemp, hforce,
          ((Plan.planDispatch.inj h).1).symm⟩
      · rw [if_neg hfb] at h; exact absurd h (by simp)
    · rw [if_neg hemp] at h
      unfold planDistribute at h
      by_cases h0 : req.power = 0
      · rw [if_pos h0] at h
        exact Or.inr (Or.inl ((Plan.planDispatch.inj h).1.symm))
      · rw [if_neg h0] at h
        by_cases hex : (aggBounds (usablePairs env req)).exclusion_lower < req.power ∧
            req.power < (aggBounds (usablePairs env req)).exclusion_upper ∧
            (aggBounds (usablePairs env req)).inclusion_lower ≤ req.power ∧
            req.power ≤ (aggBounds (usablePairs env req)).inclusion_upper
        · rw [if_pos hex] at h; exact absurd h (by simp)
        · rw [if_neg hex] at h
          by_cases hin : req.power < (aggBounds (usablePairs env req)).inclusion_lower ∨
              (aggBounds (usablePairs env req)).inclusion_upper < req.power
          · rw [if_pos hin] at h
            by_cases hadj : req.adjust_power = true
            · rw [if_pos hadj] at h
              exact Or.inr (Or.inr ⟨_, (Plan.planDispatch.inj h).1.symm⟩)
            · rw [if_neg hadj] at h; exact absurd h (by simp)
          · rw [if_neg hin] at h
            exact Or.inr (Or.inr ⟨req.power, (Plan.planDispatch.inj h).1.symm⟩)

theorem assemble_sb_subset (f : List Nat) (sps : List (Nat × ℚ)) (ex : ℚ) :
    (assemble f (Plan.planDispatch sps ex)).succeededBatteries ⊆ sps.map (·.1) := by
  simp only [assemble]
  split
  · exact splitDispatch_sb_subset f sps
  · exact splitDispatch_sb_subset f sps

theorem pairFor_bid (env : DistEnv) (frc : Bool) (b : Nat) (p : Pair)
    (h : pairFor env frc b = some p) : p.bid = b := by
  unfold pairFor at h
  cases he : effectiveBattery frc (env.latest_battery b) (env.cached_battery b) with
  | none => rw [he] at h; exact absurd h (by simp)
  | some bd =>
    rw [he] at h
    cases hi : env.latest_inverter (env.bat_inv b) with
    | none => rw [hi] at h; exact absurd h (by simp)
    | some inv =>
      rw [hi] at h
      have : mkPair b bd inv = p := by simpa using h
      rw [← this]
      rfl

theorem usable_bid_pairFor (env : DistEnv) (req : Request) (b : Nat)
    (h : b ∈ (usablePairs env req).map Pair.bid) :
    ∃ p, pairFor env req.include_broken_batteries b = some p := by
  obtain ⟨p, hp, hb⟩ := List.mem_map.mp h
  obtain ⟨a, _, hfa⟩ := List.mem_filterMap.mp hp
  have hab : a = b := by rw [← hb, pairFor_bid env _ a p hfa]
  exact ⟨p, hab ▸ hfa⟩

theorem pairFor_invalid (env : DistEnv) (b : Nat) (l : BatteryData)
    (hl : env.latest_battery b = some l) (hnan : l.soc = none ∨ l.capacity = none) :
    pairFor env false b = none := by
  unfold pairFor effectiveBattery
  rw [hl]
  rcases hnan with h | h
  · simp [h]
  · cases hs : l.soc <;> simp [h, hs]

theorem filterMap_pairFor_bids (env : DistEnv) (frc : Bool) (ids : List Nat)
    (h : ∀ b ∈ ids, (pairFor env frc b).isSome) :
    (ids.filterMap (pairFor env frc)).map Pair.bid = ids := by
  induction ids with
  | nil => simp
  | cons a l ih =>
    have ha := h a (List.mem_cons_self a l)
    obtain ⟨p, hp⟩ := Option.isSome_iff_exists.mp ha
    simp only [List.filterMap_cons, hp, List.map_cons]
    rw [pairFor_bid env frc a p hp, ih (fun b hb => h b (List.mem_cons_of_mem a hb))]

theorem equalSplit_fst (req : Request) : (equalSplit req).map (·.1) = req.batteries := by
  unfold equalSplit
  rw [List.map_map]
  have hc : ((fun x : Nat × ℚ => x.1) ∘
      fun b => (b, req.power / (req.batteries.length : ℚ))) = fun b => b := rfl
  rw [hc]
  exact List.map_id req.batteries


/-- Claim C2 (amended): on the normal distribution path — when at least one
eligible pair has usable telemetry — every dispatched setpoint lies within
the effective inclusion envelope of its pair, and the succeeded power lies
between the sums of the per-pair inclusion bounds.  The unamended claim is
false: see `force_fallback_violates_inverter_bounds`. -/
theorem normal_path_setpoints_within_bounds (env : DistEnv) (req : Request)
    (hfail : env.failed_dispatch = [])
    (hu : usablePairs env req ≠ [])
    (hwf : ∀ p ∈ usablePairs env req, p.WF) :
    (∀ s ∈ dispatchedSetpoints env req, ∃ p ∈ usablePairs env req,
      s.1 = p.bid ∧ p.lo ≤ s.2 ∧ s.2 ≤ p.hi) ∧
    ((usablePairs env req).map Pair.lo).sum ≤ (processRequest env req).succeededPower ∧
    (processRequest env req).succeededPower ≤ ((usablePairs env req).map Pair.hi).sum := by
  have hlo0 := sum_lo_nonpos _ hwf
  have hhi0 := sum_hi_nonneg _ hwf
  unfold processRequest dispatchedSetpoints
  cases hp : planRequest env req with
  | planError m =>
    refine ⟨by simp, ?_, ?_⟩ <;>
      simp only [assemble, DistResult.succeededPower] <;> assumption
  | planOOB bd =>
    refine ⟨by simp, ?_, ?_⟩ <;>
      simp only [assemble, DistResult.succeededPower] <;> assumption
  | planDispatch sps ex =>
    rcases plan_dispatch_cases env req sps ex hp with ⟨he, _⟩ | hz | ⟨t, ht⟩
    · exact absurd he hu
    · subst hz
      refine ⟨?_, ?_⟩
      · intro s hs
        obtain ⟨p, hp', he⟩ := List.mem_map.mp hs
        obtain ⟨w1, w2, w3, w4⟩ := hwf p hp'
        exact ⟨p, hp', by rw [← he], by rw [← he]; dsimp; linarith,
          by rw [← he]; dsimp; linarith⟩
      · rw [hfail]
        simp only [assemble]
        rw [splitDispatch_nofail]
        have hz := zeroSetpoints_sum (usablePairs env req)
        simp only [hz]
        simp only [List.isEmpty_nil, if_true, DistResult.succeededPower]
        exact ⟨hlo0, hhi0⟩
    · subst ht
      refine ⟨allocate_mem _ t hwf, ?_⟩
      rw [hfail]
      simp only [assemble]
      rw [splitDispatch_nofail]
      simp only [List.isEmpty_nil, if_true, DistResult.succeededPower]
      exact allocate_sum_bounds _ t hwf

/-- Claim C7: with `include_broken_batteries = false`, a battery whose
latest sample has NaN in SoC or capacity never appears among the succeeded
batteries; concretely, the scenarios of `test_battery_soc_nan` and
`test_battery_capacity_nan` succeed with battery 19 only, 500 W succeeded
and 700 W excess. -/
theorem nan_battery_excluded :
    (∀ (env : DistEnv) (req : Request) (b : Nat) (l : BatteryData),
      req.include_broken_batteries = false →
      env.latest_battery b = some l →
      (l.soc = none ∨ l.capacity = none) →
      b ∉ (processRequest env req).succeededBatteries) ∧
    processRequest nanSocEnv req1200 = DistResult.success 500 700 [19] [] ∧
    processRequest nanCapEnv req1200 = DistResult.success 500 700 [19] [] := by
  refine ⟨?_, eval_nanSoc, eval_nanCap⟩
  intro env req b l hforce hl hnan hmem
  unfold processRequest at hmem
  cases hp : planRequest env req with
  | planError m => rw [hp] at hmem; simp [assemble, DistResult.succeededBatteries] at hmem
  | planOOB bd => rw [hp] at hmem; simp [assemble, DistResult.succeededBatteries] at hmem
  | planDispatch sps ex =>
    rw [hp] at hmem
    have hsub := assemble_sb_subset env.failed_dispatch sps ex hmem
    have hbid : b ∈ (usablePairs env req).map Pair.bid := by
      rcases plan_dispatch_cases env req sps ex hp with ⟨_, hf, _⟩ | hz | ⟨t, ht⟩
      · rw [hforce] at hf; exact absurd hf (by simp)
      · rw [hz, map_fst_pairs] at hsub
        exact hsub
      · rw [ht, allocate_bids] at hsub
        exact hsub
    obtain ⟨p, hpf⟩ := usable_bid_pairFor env req b hbid
    rw [hforce, pairFor_invalid env b l hl hnan] at hpf
    exact absurd hpf (by simp)

/-- Claim C8: with `include_broken_batteries = true` the eligible set is
exactly `request.batteries`, whatever working set the status provider reports;
and when every requested battery resolves to a usable pair and the dispatch
is acknowledged, a distributing request reports exactly the requested
batteries as succeeded. -/
theorem force_include_eligibility (env : DistEnv) (req : Request)
    (hforce : req.include_broken_batteries = true) :
    eligibleIds env req = req.batteries ∧
    (env.failed_dispatch = [] →
      (∀ b ∈ req.batteries, (pairFor env true b).isSome) →
      ∀ sps ex, planRequest env req = Plan.planDispatch sps ex →
      (processRequest env req).succeededBatteries = req.batteries) := by
  have helig : eligibleIds env req = req.batteries := by
    simp [eligibleIds, hforce]
  refine ⟨helig, ?_⟩
  intro hfail hsome sps ex hplan
  have husable : (usablePairs env req).map Pair.bid = req.batteries := by
    unfold usablePairs
    rw [helig, hforce]
    exact filterMap_pairFor_bids env true req.batteries hsome
  have hsps : sps.map (·.1) = req.batteries := by
    rcases plan_dispatch_cases env req sps ex hplan with ⟨_, _, he⟩ | hz | ⟨t, ht⟩
    · rw [he]; exact equalSplit_fst req
    · rw [hz, map_fst_pairs]; exact husable
    · rw [ht, allocate_bids]; exact husable
  unfold processRequest
  rw [hplan, hfail]
  simp only [assemble]
  rw [splitDispatch_nofail]
  simp only [List.isEmpty_nil, if_true, DistResult.succeededBatteries]
  exact hsps


/-- Claim C2 counterexample: in the scenario of
`test_force_request_battery_nan_value_non_cached` (inverter envelopes of
500 W primed by `init_component_data`, forced request of 1200 W with no
usable battery telemetry) the dispatched power 1200 W exceeds the 1000 W
sum of the inclusion upper bounds of the inverters, and the per-inverter
setpoint 600 W exceeds the single inverter bound 500 W. -/
theorem force_fallback_violates_inverter_bounds :
    processRequest forceNanEnv forceReq = DistResult.success 1200 0 [9, 19] [] ∧
    initInverter.inclusion_upper + initInverter.inclusion_upper <
      (processRequest forceNanEnv forceReq).succeededPower ∧
    ∃ s ∈ dispatchedSetpoints forceNanEnv forceReq, initInverter.inclusion_upper < s.2 := by
  refine ⟨eval_forceNan, ?_, ?_⟩
  · rw [eval_forceNan]
    norm_num [DistResult.succeededPower, initInverter]
  · refine ⟨(9, 600), ?_, ?_⟩
    · unfold dispatchedSetpoints
      rw [plan_forceNan]
      simp
    · norm_num [initInverter]

theorem batInvMap_mem (edges : List (Nat × Nat)) (b i : Nat)
    (h : batInvMap edges b = some i) : (b, i) ∈ edges := by
  unfold batInvMap at h
  cases hf : edges.find? (fun q => q.1 == b) with
  | none => rw [hf] at h; exact absurd h (by simp)
  | some q =>
    rw [hf] at h
    have hq : q.1 = b := by simpa using List.find?_some hf
    have hm := List.mem_of_find?_eq_some hf
    have hi2 : q.2 = i := by simpa using h
    have he : (b, i) = q := by
      obtain ⟨q1, q2⟩ := q
      simp_all
    rw [he]
    exact hm

theorem invBatMap_mem (edges : List (Nat × Nat)) (b i : Nat)
    (h : invBatMap edges i = some b) : (b, i) ∈ edges := by
  unfold invBatMap at h
  cases hf : edges.find? (fun q => q.2 == i) with
  | none => rw [hf] at h; exact absurd h (by simp)
  | some q =>
    rw [hf] at h
    have hq : q.2 = i := by simpa using List.find?_some hf
    have hm := List.mem_of_find?_eq_some hf
    have hi2 : q.1 = b := by simpa using h
    have he : (b, i) = q := by
      obtain ⟨q1, q2⟩ := q
      simp_all
    rw [he]
    exact hm

theorem invBatMap_of_mem (edges : List (Nat × Nat)) (b i : Nat)
    (hnd : (edges.map Prod.snd).Nodup) (hm : (b, i) ∈ edges) :
    invBatMap edges i = some b := by
  induction edges with
  | nil => simp at hm
  | cons e l ih =>
    rw [List.map_cons, List.nodup_cons] at hnd
    unfold invBatMap
    by_cases he : (e.2 == i) = true
    · have hfind : List.find? (fun q => q.2 == i) (e :: l) = some e := by
        apply List.find?_cons_of_pos
        simpa using he
      rw [hfind]
      have he2 : e.2 = i := by simpa using he
      rcases List.mem_cons.mp hm with h | h
      · rw [← h]
        rfl
      · exact absurd (he2 ▸ List.mem_map.mpr ⟨(b, i), h, rfl⟩) hnd.1
    · have hfind : List.find? (fun q => q.2 == i) (e :: l) =
          List.find? (fun q => q.2 == i) l := by
        apply List.find?_cons_of_neg
        simpa using he
      rw [hfind]
      have h2 : (b, i) ∈ l := by
        rcases List.mem_cons.mp hm with h | h
        · exfalso
          rw [← h] at he
          simp at he
        · exact h
      exact ih hnd.2 h2

theorem batInvMap_of_mem (edges : List (Nat × Nat)) (b i : Nat)
    (hnd : (edges.map Prod.fst).Nodup) (hm : (b, i) ∈ edges) :
    batInvMap edges b = some i := by
  induction edges with
  | nil => simp at hm
  | cons e l ih =>
    rw [List.map_cons, List.nodup_cons] at hnd
    unfold batInvMap
    by_cases he : (e.1 == b) = true
    · have hfind : List.find? (fun q => q.1 == b) (e :: l) = some e := by
        apply List.find?_cons_of_pos
        simpa using he
      rw [hfind]
      have he2 : e.1 = b := by simpa using he
      rcases List.mem_cons.mp hm with h | h
      · rw [← h]
        rfl
      · exact absurd (he2 ▸ List.mem_map.mpr ⟨(b, i), h, rfl⟩) hnd.1
    · have hfind : List.find? (fun q => q.1 == b) (e :: l) =
          List.find? (fun q => q.1 == b) l := by
        apply List.find?_cons_of_neg
        simpa using he
      rw [hfind]
      have h2 : (b, i) ∈ l := by
        rcases List.mem_cons.mp hm with h | h
        · exfalso
          rw [← h] at he
          simp at he
        · exact h
      exact ih hnd.2 h2

/-- Claim C9: the battery-to-inverter and inverter-to-battery maps the
actor derives from the battery-inverter edges of the graph are mutual inverses
whenever each battery connects to exactly one inverter and vice versa
(no duplicated endpoints).  Both maps are pure functions of the
construction-time edges, so they cannot change over the lifetime of the
actor in this model. -/
theorem bat_inv_maps_mutual_inverse (edges : List (Nat × Nat)) (b i : Nat)
    (h1 : (edges.map Prod.fst).Nodup) (h2 : (edges.map Prod.snd).Nodup) :
    batInvMap edges b = some i ↔ invBatMap edges i = some b :=
  ⟨fun h => invBatMap_of_mem edges b i h2 (batInvMap_mem edges b i h),
   fun h => batInvMap_of_mem edges b i h1 (invBatMap_mem edges b i h)⟩

/-- Claim C10: `_gen_phase_formula` pushes, for the component at each
position, a "+" operator exactly when the position is not the first —
regardless of the category of the component — followed by a metric operand with
`nones_are_zeros = true` exactly for `INVERTER`/`EV_CHARGER` and
`nones_are_zeros = false` exactly for `METER`, and no operand for any other
category; hence a skipped non-first component contributes a "+" with no
following operand. -/
theorem gen_phase_formula_steps (cs : List Component) :
    (genPhaseFormula cs =
      (cs.enum.map fun q => claimedPhaseContribution q.1 q.2).flatten) ∧
    ∀ (idx : Nat) (comp : Component), 0 < idx →
      ¬(comp.category = ComponentCategory.inverter ∨
        comp.category = ComponentCategory.evCharger ∨
        comp.category = ComponentCategory.meter) →
      claimedPhaseContribution idx comp = [FormulaStep.oper "+"] := by
  constructor
  · rw [genPhaseFormula, genPhaseRun_eq]
    rfl
  · intro idx comp hidx hcat
    push_neg at hcat
    obtain ⟨hc1, hc2, hc3⟩ := hcat
    unfold claimedPhaseContribution
    rw [if_neg (by omega), if_neg (by tauto), if_neg hc3]
    rfl


theorem stdPair_wf (b : Nat) : (stdPair b).WF := by norm_num [Pair.WF, stdPair]

theorem stdPair_pos (b : Nat) : 0 < (stdPair b).wc ∧ 0 < (stdPair b).wd := by
  norm_num [stdPair]

theorem exclPair_wf (b : Nat) : (exclPair b).WF := by norm_num [Pair.WF, exclPair]

theorem normal_path_setpoints_within_bounds_witness :
    (∀ s ∈ dispatchedSetpoints stdEnv req1200, ∃ p ∈ usablePairs stdEnv req1200,
      s.1 = p.bid ∧ p.lo ≤ s.2 ∧ s.2 ≤ p.hi) ∧
    ((usablePairs stdEnv req1200).map Pair.lo).sum ≤
      (processRequest stdEnv req1200).succeededPower ∧
    (processRequest stdEnv req1200).succeededPower ≤
      ((usablePairs stdEnv req1200).map Pair.hi).sum :=
  normal_path_setpoints_within_bounds stdEnv req1200 rfl
    (by rw [usable_std req1200 rfl rfl]; simp)
    (by
      rw [usable_std req1200 rfl rfl]
      intro p hp
      simp only [List.mem_cons, List.not_mem_nil, or_false] at hp
      rcases hp with h | h <;> subst h <;> exact stdPair_wf _)

theorem zero_power_request_success_witness :
    processRequest exclEnv reqZero = DistResult.success 0 0 [9, 19] [] ∧
    (aggBounds (usablePairs exclEnv reqZero)).exclusion_upper = 600 := by
  have h := zero_power_request_success exclEnv reqZero rfl (by decide)
    (by rw [usable_excl reqZero rfl rfl]; simp) rfl
  rw [usable_excl reqZero rfl rfl] at h
  refine ⟨?_, by rw [usable_excl reqZero rfl rfl, agg_excl]⟩
  simpa [exclPair] using h

theorem exclusion_band_rejection_witness :
    processRequest exclEnv req300 = DistResult.outOfBounds ⟨-1000, -600, 600, 1000⟩ := by
  have h := exclusion_band_rejection exclEnv req300 (by decide)
    (by rw [usable_excl req300 rfl rfl]; simp)
    (by norm_num [req300])
    (by rw [usable_excl req300 rfl rfl, agg_excl]; norm_num [req300])
    (by rw [usable_excl req300 rfl rfl, agg_excl]; norm_num [req300])
    (by rw [usable_excl req300 rfl rfl, agg_excl]; norm_num [req300])
    (by rw [usable_excl req300 rfl rfl, agg_excl]; norm_num [req300])
  rw [usable_excl req300 rfl rfl, agg_excl] at h
  exact h

theorem inclusion_bounds_handling_witness :
    processRequest stdEnv req1200na = DistResult.outOfBounds ⟨-1000, 0, 0, 1000⟩ ∧
    processRequest stdEnv req1200 = DistResult.success 1000 200 [9, 19] [] ∧
    processRequest stdEnv req1000na = DistResult.success 1000 0 [9, 19] [] := by
  refine ⟨?_, ?_, ?_⟩
  · have h := (inclusion_bounds_handling stdEnv req1200na rfl (by decide)
      (by rw [usable_std req1200na rfl rfl]; simp)
      (by
        rw [usable_std req1200na rfl rfl]
        intro p hp
        simp only [List.mem_cons, List.not_mem_nil, or_false] at hp
        rcases hp with h | h <;> subst h <;> exact stdPair_wf _)
      (by
        rw [usable_std req1200na rfl rfl]
        intro p hp
        simp only [List.mem_cons, List.not_mem_nil, or_false] at hp
        rcases hp with h | h <;> subst h <;> exact stdPair_pos _)).1
      ⟨by rw [usable_std req1200na rfl rfl, agg_std]; norm_num [req1200na], rfl⟩
    rw [usable_std req1200na rfl rfl, agg_std] at h
    exact h
  · have h := (inclusion_bounds_handling stdEnv req1200 rfl (by decide)
      (by rw [usable_std req1200 rfl rfl]; simp)
      (by
        rw [usable_std req1200 rfl rfl]
        intro p hp
        simp only [List.mem_cons, List.not_mem_nil, or_false] at hp
        rcases hp with h | h <;> subst h <;> exact stdPair_wf _)
      (by
        rw [usable_std req1200 rfl rfl]
        intro p hp
        simp only [List.mem_cons, List.not_mem_nil, or_false] at hp
        rcases hp with h | h <;> subst h <;> exact stdPair_pos _)).2.1
      ⟨by rw [usable_std req1200 rfl rfl, agg_std]; norm_num [req1200], rfl⟩
    rw [usable_std req1200 rfl rfl, agg_std] at h
    norm_num [clampQ, min_def, max_def, req1200, stdPair] at h
    exact h
  · have h := (inclusion_bounds_handling stdEnv req1000na rfl (by decide)
      (by rw [usable_std req1000na rfl rfl]; simp)
      (by
        rw [usable_std req1000na rfl rfl]
        intro p hp
        simp only [List.mem_cons, List.not_mem_nil, or_false] at hp
        rcases hp with h | h <;> subst h <;> exact stdPair_wf _)
      (by
        rw [usable_std req1000na rfl rfl]
        intro p hp
        simp only [List.mem_cons, List.not_mem_nil, or_false] at hp
        rcases hp with h | h <;> subst h <;> exact stdPair_pos _)).2.2
      ⟨by rw [usable_std req1000na rfl rfl, agg_std]; norm_num [req1000na], rfl⟩
    rw [usable_std req1000na rfl rfl] at h
    norm_num [req1000na, stdPair] at h
    exact h

theorem unknown_battery_error_witness :
    processRequest stdEnv reqBad =
      DistResult.error (noBatteryMsg 100 stdEnv.graph_batteries) ∧
    strContains (noBatteryMsg 100 stdEnv.graph_batteries) (noBatteryPattern 100) := by
  have h := unknown_battery_error stdEnv reqBad 100 (by decide)
  exact ⟨h.1, h.2.2.2⟩

theorem nan_battery_excluded_witness :
    9 ∉ (processRequest nanSocEnv req1200).succeededBatteries :=
  nan_battery_excluded.1 nanSocEnv req1200 9 { initBattery with soc := none } rfl rfl
    (Or.inl rfl)

theorem force_include_eligibility_witness :
    eligibleIds noneWorkingEnv forceReq = forceReq.batteries ∧
    (processRequest noneWorkingEnv forceReq).succeededBatteries = forceReq.batteries := by
  have h := force_include_eligibility noneWorkingEnv forceReq rfl
  refine ⟨h.1, h.2 rfl ?_ [(9, 500), (19, 500)] 200 plan_noneWorking⟩
  intro b hb
  rcases List.mem_cons.mp hb with h9 | hb2
  · subst h9
    rw [pairFor_init noneWorkingEnv true 9 rfl rfl]
    rfl
  · rcases List.mem_cons.mp hb2 with h19 | h0
    · subst h19
      rw [pairFor_init noneWorkingEnv true 19 rfl rfl]
      rfl
    · simp at h0

theorem bat_inv_maps_mutual_inverse_witness :
    invBatMap [(9, 8), (19, 18), (29, 28)] 8 = some 9 :=
  (bat_inv_maps_mutual_inverse [(9, 8), (19, 18), (29, 28)] 9 8 (by decide) (by decide)).mp
    (by decide)

theorem gen_phase_formula_steps_witness :
    genPhaseFormula demoSuccessors =
      (demoSuccessors.enum.map fun q => claimedPhaseContribution q.1 q.2).flatten ∧
    claimedPhaseContribution 1 ⟨2, ComponentCategory.battery⟩ = [FormulaStep.oper "+"] :=
  ⟨(gen_phase_formula_steps demoSuccessors).1,
    (gen_phase_formula_steps demoSuccessors).2 1 ⟨2, ComponentCategory.battery⟩
      (by decide) (by decide)⟩

end PD
